import Mathlib

/-!
Verification of the accessibility-crawler described in the repository
(Cypress `spider` crawl, markdown report formatting, report-file naming,
and the GitHub-issue dedup loop).  Every definition below is a shallow
embedding of the corresponding JavaScript from the source; external
collaborators (the URL parser, the page DOM, the accessibility engine,
the issue tracker) are passed in as explicit parameters.
-/

namespace A11y

/-- One axe violation, as consumed by `formatViolationsToMarkdown`
(`v.id`, `v.impact`, `v.description`, `v.help`, `v.helpUrl`, `v.nodes`
with each node contributing its `html` snippet). -/
structure Violation where
  id : String
  impact : String
  description : String
  help : String
  helpUrl : String
  nodes : List String
deriving Repr, DecidableEq

/-- Char-list prefix test, used to define the substring test below. -/
def leadsWith : List Char → List Char → Bool
  | [], _ => true
  | _ :: _, [] => false
  | a :: as, b :: bs => a == b && leadsWith as bs

/-- Char-list substring test (`need` occurs contiguously in `hay`). -/
def listContainsSub : List Char → List Char → Bool
  | [], need => need.isEmpty
  | h :: t, need => leadsWith need (h :: t) || listContainsSub t need

/-- JavaScript `hay.includes(need)`. -/
def strIncludes (hay need : String) : Bool :=
  listContainsSub hay.data need.data

/-- JavaScript `s.startsWith(pre)` (also the attribute selector
`a[href^="/"]`), computed on the character lists. -/
def strStarts (s pre : String) : Bool :=
  leadsWith pre.data s.data

/-- The pure per-href conditions of the spider: the selector
`a[href^="/"]` together with the `.filter` conditions that do not touch
the visited set (`typeof href === 'string'` is always true in the model,
`!href.startsWith('#')`, `!href.includes('logout')`,
`!href.includes('mailto:')`). -/
def keepHref (h : String) : Bool :=
  strStarts h ("/") && !(strStarts h ("#"))
    && !(strIncludes h ("logout")) && !(strIncludes h ("mailto:"))

/-- One violation block of `formatViolationsToMarkdown`: the template
literal that starts with a newline and ends with a newline and two
spaces, with the affected elements joined by newlines. -/
def violationBlock (v : Violation) : String :=
  "\n### ❌ " ++ v.id
    ++ "\n- Impact: `" ++ v.impact
    ++ "`\n- Description: " ++ v.description
    ++ "\n- Help: [" ++ v.help ++ "](" ++ v.helpUrl
    ++ ")\n- Affected Elements:\n"
    ++ String.intercalate ("\n") (v.nodes.map (fun n => "  - `" ++ n ++ "`"))
    ++ "\n  "

/-- `formatViolationsToMarkdown(url, violations)` from the source: the
page header, then either the fixed sentinel (empty list) or the
violation blocks joined by newlines. -/
def formatViolationsToMarkdown (url : String) (violations : List Violation) : String :=
  let header := "## Accessibility Violations on `" ++ url ++ "`\n\n"
  match violations with
  | [] => header ++ "_No violations found._"
  | vs => header ++ String.intercalate ("\n") (vs.map violationBlock)

/-- The single-character substitution performed by
`url.replace(/\//g, '-')`. -/
def slashToDash (c : Char) : Char := if c = '/' then '-' else c

/-- The anchored single-replacement `s.replace` with the regex
`caret dash`: drop one leading dash when present. -/
def stripLeadingDash (s : String) : String :=
  match s.data with
  | '-' :: t => String.mk t
  | _ => s

/-- `safeName` from the report-saving snippet: the root path maps to
`home`; every other url has each slash replaced by a dash (the global
regex replace) and then one leading dash stripped. -/
def safeName (url : String) : String :=
  if url = "/" then "home"
  else stripLeadingDash (String.mk (url.data.map slashToDash))

/-- The path handed to `cy.writeFile`: `reports/a11y-$(safeName).md`. -/
def reportFileName (url : String) : String :=
  "reports/a11y-" ++ safeName url ++ ".md"

/-- The mutable run state of the spider: `visited` is the global
`Set` in insertion order, `audits` records every url for which
`cy.visit` was issued, in order, and `reports` the page reports
produced by a successful audit (url paired with markdown content). -/
structure CrawlState where
  visited : List String
  audits : List String
  reports : List (String × String)
deriving Repr, DecidableEq

/-- The two uncaught exceptions the spider can raise: `new URL` throwing
on an href, and `cy.visit` / `cy.checkA11y` failing on a page. -/
inductive CrawlError where
  | linkParse (href : String)
  | auditFailed (url : String)
deriving Repr, DecidableEq

/-- The page's anchors (raw `href` attributes in DOM order), looked up
in the finite link graph; a page absent from the graph has none. -/
def pageLinks (g : List (String × List String)) (url : String) : List String :=
  match g.find? (fun p => p.1 == url) with
  | some p => p.2
  | none => []

/-- The `.filter` of the spider over the selected hrefs, with the
left-to-right short-circuit of the JavaScript filter callback: the
visited test calls `new URL(href, base)`, and when the parser fails the
exception escapes the whole filter, so the result is an `Except`.
`resolve` is the external URL parser with the base already applied. -/
def filterHrefs (resolve : String → Option String) (vis : List String) :
    List String → Except String (List String)
  | [] => Except.ok []
  | h :: t =>
    if keepHref h then
      match resolve h with
      | none => Except.error h
      | some abs =>
        if abs ∈ vis then filterHrefs resolve vis t
        else
          match filterHrefs resolve vis t with
          | Except.error e => Except.error e
          | Except.ok l => Except.ok (h :: l)
    else filterHrefs resolve vis t

/-- JavaScript `[...new Set(l)]`: first-occurrence de-duplication. -/
def dedupFirst (seen : List String) : List String → List String
  | [] => []
  | h :: t => if h ∈ seen then dedupFirst seen t else h :: dedupFirst (h :: seen) t

/-- The `cy.wrap(hrefs).each` loop: resolve each href, then run the
recursive spider call (`go`), stopping at the first raised exception
(Cypress aborts the run once a command fails). -/
def crawlList (resolve : String → Option String)
    (go : String → CrawlState → CrawlState × Option CrawlError) :
    List String → CrawlState → CrawlState × Option CrawlError
  | [], s => (s, none)
  | h :: t, s =>
    match resolve h with
    | none => (s, some (CrawlError.linkParse h))
    | some abs =>
      match (go abs s).2 with
      | some e => ((go abs s).1, some e)
      | none => crawlList resolve go t (go abs s).1

/-- The body of `spider(url, depth)` for `depth` positive, with the
recursive occurrence abstracted as `go`: return if already visited;
add to the visited set; issue the visit and audit (which may fail);
on success record the page report, select and filter the page's
anchors (which may throw on an unparsable href), de-duplicate them,
and crawl them in order at the next depth. -/
def spiderStep (g : List (String × List String)) (resolve : String → Option String)
    (audit : String → Option (List Violation))
    (go : String → CrawlState → CrawlState × Option CrawlError)
    (url : String) (s : CrawlState) : CrawlState × Option CrawlError :=
  if url ∈ s.visited then (s, none)
  else
    match audit url with
    | none =>
      (⟨s.visited ++ [url], s.audits ++ [url], s.reports⟩,
        some (CrawlError.auditFailed url))
    | some v =>
      match filterHrefs resolve (s.visited ++ [url]) (pageLinks g url) with
      | Except.error h =>
        (⟨s.visited ++ [url], s.audits ++ [url],
            s.reports ++ [(url, formatViolationsToMarkdown url v)]⟩,
          some (CrawlError.linkParse h))
      | Except.ok kept =>
        crawlList resolve go (dedupFirst [] kept)
          ⟨s.visited ++ [url], s.audits ++ [url],
            s.reports ++ [(url, formatViolationsToMarkdown url v)]⟩

/-- `spider(url, depth)` from the source, over a finite link graph `g`,
an external URL parser `resolve`, and an external audit step `audit`
(returning the violation list, or failing).  Depth zero returns before
visiting, matching the guard `visited.has(url) || depth === 0`; each
recursive hop runs at `depth - 1`. -/
def spider (g : List (String × List String)) (resolve : String → Option String)
    (audit : String → Option (List Violation)) :
    Nat → String → CrawlState → CrawlState × Option CrawlError
  | 0, _, s => (s, none)
  | Nat.succ d, url, s => spiderStep g resolve audit (spider g resolve audit d) url s

/-- All hrefs appearing anywhere in the link graph. -/
def allHrefs (g : List (String × List String)) : List String :=
  (g.map (fun p => p.2)).flatten

/-- Every absolute URL the crawl could ever audit: the seed plus the
successful resolutions of the graph's hrefs. -/
def allCands (g : List (String × List String)) (resolve : String → Option String)
    (seed : String) : List String :=
  seed :: (allHrefs g).filterMap resolve

/-! ### The issue-filing loop over the reports directory -/

/-- Replace the first occurrence of `pat` by `rep`, on character
lists: JavaScript `s.replace(pat, rep)` with a plain-string pattern. -/
def replaceFirstChars (pat rep : List Char) : List Char → List Char
  | [] => if leadsWith pat [] then rep else []
  | h :: t =>
    if leadsWith pat (h :: t) then rep ++ (h :: t).drop pat.length
    else h :: replaceFirstChars pat rep t

/-- JavaScript `s.replace(pat, rep)` for a plain-string pattern: only
the first occurrence is replaced. -/
def replaceFirst (s pat rep : String) : String :=
  String.mk (replaceFirstChars pat.data rep.data s.data)

/-- The issue title derived from a report file name:
`Accessibility issues on /` followed by `file.replace('.md', '')`. -/
def issueTitle (file : String) : String :=
  "Accessibility issues on /" ++ replaceFirst file (".md") ("")

/-- Line-joined text, as a multi-line command output. -/
def joinLines : List String → String
  | [] => ""
  | [x] => x
  | x :: xs => x ++ "\n" ++ joinLines xs

/-- The output of `gh issue list --search title --state open`: the
titles of the open issues matching the query (modelled as the open
issues whose title contains it), one per line. -/
def ghIssueList (openIssues : List String) (q : String) : String :=
  joinLines (openIssues.filter (fun t => strIncludes t q))

/-- The dedup check of the loop: `existing.includes(title)` on that
command output. -/
def issueExists (openIssues : List String) (title : String) : Bool :=
  strIncludes (ghIssueList openIssues title) title

/-- One iteration of the `fs.readdirSync(reportsDir).forEach` loop:
derive the title, skip when the dedup check finds it, otherwise
`gh issue create` an open issue with that title. -/
def processFile (openIssues : List String) (file : String) : List String :=
  let title := issueTitle file
  if issueExists openIssues title then openIssues
  else openIssues ++ [title]

/-- The whole issue-filing pass over the files of the reports
directory, returning the open issues after the run. -/
def fileIssuesRun (openIssues : List String) (files : List String) : List String :=
  files.foldl processFile openIssues

/-! ### A FIFO frontier, modelled from the spec

The spec (section 4.1) describes `dequeue()` as returning the next
pending task in discovery order (FIFO), with links enqueued at
`depth - 1` and `enqueue` a no-op when the url is visited or the depth
is below zero.  The crawl below follows those words; it is the
reference the source's traversal order is compared against. -/

/-- Modelled from the spec: drain a FIFO frontier of `(url, depth)`
tasks, auditing each newly dequeued url and appending its resolved
links at the back of the queue with depth one less (skipping the
enqueue entirely when the depth is already zero).  `fuel` only bounds
the recursion. -/
def fifoCrawl (g : List (String × List String)) (resolve : String → Option String) :
    Nat → List (String × Nat) → List String → List String → List String
  | 0, _, _, order => order
  | _ + 1, [], _, order => order
  | fuel + 1, (u, d) :: q, vis, order =>
    if u ∈ vis then fifoCrawl g resolve fuel q vis order
    else
      let hrefs := dedupFirst [] ((pageLinks g u).filter keepHref)
      let newTasks :=
        if d = 0 then []
        else (hrefs.filterMap resolve).map (fun a => (a, d - 1))
      fifoCrawl g resolve fuel (q ++ newTasks) (vis ++ [u]) (order ++ [u])

/-- Modelled from the spec: the audit order of the FIFO crawl seeded
with the root at the configured maximum depth. -/
def fifoCrawlOrder (g : List (String × List String)) (resolve : String → Option String)
    (seed : String) (maxDepth : Nat) (fuel : Nat) : List String :=
  fifoCrawl g resolve fuel [(seed, maxDepth)] [] []

/-! ### Concrete sites, resolvers and audits used by the examples -/

/-- The crawl base URL of the examples. -/
def siteBase : String := "https://site.test"

/-- A total URL parser: every href resolves against the base. -/
def resolveT (h : String) : Option String := some (siteBase ++ h)

/-- An audit that always succeeds with no violations. -/
def auditOk : String → Option (List Violation) := fun _ => some []

/-- The state at the start of a run: nothing visited, no reports. -/
def emptyState : CrawlState := ⟨[], [], []⟩

/-- The seed of the example crawls, `baseUrl + "/"`. -/
def rootUrl : String := siteBase ++ "/"

/-- The about page of the depth example. -/
def aboutUrl : String := siteBase ++ "/about"

/-- The team page of the depth example, reachable only via about. -/
def teamUrl : String := siteBase ++ "/about/team"

/-- The depth example site: the root links to about, about links to
team. -/
def g2 : List (String × List String) :=
  [(rootUrl, [ "/about" ]), (aboutUrl, [ "/about/team" ])]

/-- An audit that fails on the about page and succeeds elsewhere. -/
def auditFailAbout : String → Option (List Violation) :=
  fun u => if u = aboutUrl then none else some []

/-- Pages of the traversal-order example. -/
def aUrl : String := siteBase ++ "/a"

/-- Second child of the root in the traversal-order example. -/
def bUrl : String := siteBase ++ "/b"

/-- The grandchild page in the traversal-order example. -/
def cUrl : String := siteBase ++ "/c"

/-- The traversal-order example site: the root links to a and b, and a
links to c. -/
def g8 : List (String × List String) :=
  [(rootUrl, [ "/a", "/b" ]), (aUrl, [ "/c" ])]

/-- The malformed-href example site: the root page carries an
unparsable href followed by a good one. -/
def g5 : List (String × List String) :=
  [(rootUrl, [ "/bad", "/good" ])]

/-- A URL parser that fails on the malformed href and resolves every
other href against the base. -/
def resolveBad (h : String) : Option String :=
  if h = "/bad" then none else some (siteBase ++ h)

/-- The good page of the malformed-href example. -/
def goodUrl : String := siteBase ++ "/good"

/-! ### Structural lemmas about the crawl -/

/-- The run invariant: the visited list has no duplicates, the audit
trace has no duplicates, and every audited url has been visited. -/
def Inv (s : CrawlState) : Prop :=
  s.visited.Nodup ∧ s.audits.Nodup ∧ s.audits ⊆ s.visited

lemma inv_push (s : CrawlState) (url : String) (rep : List (String × String))
    (hs : Inv s) (hv : url ∉ s.visited) :
    Inv ⟨s.visited ++ [url], s.audits ++ [url], rep⟩ := by
  obtain ⟨h1, h2, h3⟩ := hs
  refine ⟨by simp [List.nodup_append, h1, hv], ?_, ?_⟩
  · have hna : url ∉ s.audits := fun hc => hv (h3 hc)
    simp [List.nodup_append, h2, hna]
  · intro x hx
    rcases List.mem_append.mp hx with hx | hx
    · exact List.mem_append.mpr (Or.inl (h3 hx))
    · exact List.mem_append.mpr (Or.inr hx)

lemma dedupFirst_sub : ∀ (seen l : List String), dedupFirst seen l ⊆ l := by
  intro seen l
  induction l generalizing seen with
  | nil => simp [dedupFirst]
  | cons h t ih =>
    simp only [dedupFirst]
    by_cases hm : h ∈ seen
    · simp only [hm, if_true]
      exact (ih seen).trans (List.subset_cons_self h t)
    · simp only [hm, if_false]
      exact List.cons_subset_cons h (ih (h :: seen))

lemma filterHrefs_sub (resolve : String → Option String) (vis : List String) :
    ∀ (l kept : List String), filterHrefs resolve vis l = Except.ok kept → kept ⊆ l := by
  intro l
  induction l with
  | nil =>
    intro kept h
    simp only [filterHrefs] at h
    cases h
    exact List.Subset.refl _
  | cons hd t ih =>
    intro kept h
    simp only [filterHrefs] at h
    by_cases hk : keepHref hd
    · simp only [hk, if_true] at h
      cases hr : resolve hd with
      | none => rw [hr] at h; cases h
      | some abs =>
        rw [hr] at h
        by_cases hm : abs ∈ vis
        · simp only [hm, if_true] at h
          exact (ih kept h).trans (List.subset_cons_self hd t)
        · simp only [hm, if_false] at h
          cases hrec : filterHrefs resolve vis t with
          | error e => rw [hrec] at h; cases h
          | ok l' =>
            rw [hrec] at h
            cases h
            exact List.cons_subset_cons hd (ih l' hrec)
    · simp only [hk, if_false] at h
      exact (ih kept h).trans (List.subset_cons_self hd t)

lemma pageLinks_sub (g : List (String × List String)) (url : String) :
    pageLinks g url ⊆ allHrefs g := by
  unfold pageLinks
  cases hf : g.find? (fun p => p.1 == url) with
  | none => simp
  | some p =>
    intro x hx
    exact List.mem_flatten.mpr
      ⟨p.2, List.mem_map_of_mem _ (List.mem_of_find?_eq_some hf), hx⟩

lemma crawlList_preserveU (resolve : String → Option String)
    (go : String → CrawlState → CrawlState × Option CrawlError)
    (X : String → Prop) (P : CrawlState → Prop)
    (hgo : ∀ u s, X u → P s → P (go u s).1) :
    ∀ (l : List String) (s : CrawlState),
      (∀ h ∈ l, ∀ abs, resolve h = some abs → X abs) →
      P s → P (crawlList resolve go l s).1 := by
  intro l
  induction l with
  | nil => intro s _ hs; simpa [crawlList] using hs
  | cons h t ih =>
    intro s hX hs
    simp only [crawlList]
    cases hr : resolve h with
    | none => simpa using hs
    | some abs =>
      have hx : X abs := hX h (List.mem_cons_self h t) abs hr
      dsimp only
      cases he : (go abs s).2 with
      | some e => exact hgo abs s hx hs
      | none =>
        exact ih (go abs s).1
          (fun h' hh' abs' hr' => hX h' (List.mem_cons_of_mem _ hh') abs' hr')
          (hgo abs s hx hs)

lemma spiderStep_preserveU (g : List (String × List String))
    (resolve : String → Option String) (audit : String → Option (List Violation))
    (go : String → CrawlState → CrawlState × Option CrawlError)
    (X : String → Prop) (P : CrawlState → Prop)
    (hgo : ∀ u s, X u → P s → P (go u s).1)
    (hpush : ∀ (s : CrawlState) (url : String) (rep : List (String × String)),
      url ∉ s.visited → X url → P s →
      P ⟨s.visited ++ [url], s.audits ++ [url], rep⟩)
    (hres : ∀ h, h ∈ allHrefs g → ∀ abs, resolve h = some abs → X abs)
    (url : String) (s : CrawlState) (hx : X url) (hs : P s) :
    P (spiderStep g resolve audit go url s).1 := by
  unfold spiderStep
  by_cases hv : url ∈ s.visited
  · simpa [hv] using hs
  · simp only [hv, if_false]
    cases ha : audit url with
    | none => exact hpush s url s.reports hv hx hs
    | some v =>
      have hs2 : P ⟨s.visited ++ [url], s.audits ++ [url],
          s.reports ++ [(url, formatViolationsToMarkdown url v)]⟩ :=
        hpush s url _ hv hx hs
      cases hf : filterHrefs resolve (s.visited ++ [url]) (pageLinks g url) with
      | error h => exact hs2
      | ok kept =>
        refine crawlList_preserveU resolve go X P hgo _ _ ?_ hs2
        intro h hh abs hr
        refine hres h ?_ abs hr
        exact pageLinks_sub g url
          (filterHrefs_sub resolve _ _ kept hf (dedupFirst_sub [] kept hh))

lemma spider_preserveU (g : List (String × List String))
    (resolve : String → Option String) (audit : String → Option (List Violation))
    (X : String → Prop) (P : CrawlState → Prop)
    (hpush : ∀ (s : CrawlState) (url : String) (rep : List (String × String)),
      url ∉ s.visited → X url → P s →
      P ⟨s.visited ++ [url], s.audits ++ [url], rep⟩)
    (hres : ∀ h, h ∈ allHrefs g → ∀ abs, resolve h = some abs → X abs) :
    ∀ (d : Nat) (url : String) (s : CrawlState), X url → P s →
      P (spider g resolve audit d url s).1 := by
  intro d
  induction d with
  | zero => intro url s _ hs; simpa [spider] using hs
  | succ d ih =>
    intro url s hx hs
    exact spiderStep_preserveU g resolve audit _ X P
      (fun u st hu hst => ih u st hu hst) hpush hres url s hx hs

lemma spider_inv (g : List (String × List String))
    (resolve : String → Option String) (audit : String → Option (List Violation))
    (d : Nat) (url : String) (s : CrawlState) (hs : Inv s) :
    Inv (spider g resolve audit d url s).1 := by
  refine spider_preserveU g resolve audit (fun _ => True) Inv ?_ ?_ d url s trivial hs
  · intro s' url' rep hv _ hs'
    exact inv_push s' url' rep hs' hv
  · intro _ _ _ _; trivial

lemma spider_audits_cands (g : List (String × List String))
    (resolve : String → Option String) (audit : String → Option (List Violation))
    (d : Nat) (seed : String) :
    (spider g resolve audit d seed emptyState).1.audits ⊆ allCands g resolve seed := by
  have main := spider_preserveU g resolve audit
    (fun u => u ∈ allCands g resolve seed)
    (fun st => ∀ x ∈ st.audits, x ∈ allCands g resolve seed)
    ?_ ?_ d seed emptyState ?_ ?_
  · exact main
  · intro s' url' rep _ hx hs' x hxm
    rcases List.mem_append.mp hxm with hx' | hx'
    · exact hs' x hx'
    · rcases List.mem_singleton.mp hx' with rfl
      exact hx
  · intro h hh abs hr
    exact List.mem_cons_of_mem _ (List.mem_filterMap.mpr ⟨h, hh, hr⟩)
  · exact List.mem_cons_self _ _
  · intro x hx
    simp [emptyState] at hx

lemma crawlList_fail_visited (resolve : String → Option String)
    (go : String → CrawlState → CrawlState × Option CrawlError)
    (hgo : ∀ u s x, (go u s).2 = some (CrawlError.auditFailed x) →
      x ∈ (go u s).1.visited) :
    ∀ (l : List String) (s : CrawlState) (x : String),
      (crawlList resolve go l s).2 = some (CrawlError.auditFailed x) →
      x ∈ (crawlList resolve go l s).1.visited := by
  intro l
  induction l with
  | nil => intro s x h; simp [crawlList] at h
  | cons h t ih =>
    intro s x hx
    simp only [crawlList] at hx ⊢
    cases hr : resolve h with
    | none => rw [hr] at hx; simp at hx
    | some abs =>
      rw [hr] at hx
      dsimp only at hx ⊢
      cases he : (go abs s).2 with
      | some e =>
        rw [he] at hx
        dsimp only at hx ⊢
        injection hx with hx1
        subst hx1
        exact hgo abs s x he
      | none =>
        rw [he] at hx
        dsimp only at hx ⊢
        exact ih _ x hx

lemma spiderStep_fail_visited (g : List (String × List String))
    (resolve : String → Option String) (audit : String → Option (List Violation))
    (go : String → CrawlState → CrawlState × Option CrawlError)
    (hgo : ∀ u s x, (go u s).2 = some (CrawlError.auditFailed x) →
      x ∈ (go u s).1.visited)
    (url : String) (s : CrawlState) (x : String)
    (hx : (spiderStep g resolve audit go url s).2 = some (CrawlError.auditFailed x)) :
    x ∈ (spiderStep g resolve audit go url s).1.visited := by
  unfold spiderStep at hx ⊢
  by_cases hv : url ∈ s.visited
  · simp [hv] at hx
  · simp only [hv, if_false] at hx ⊢
    cases ha : audit url with
    | none =>
      rw [ha] at hx
      dsimp only at hx ⊢
      simp only [Option.some.injEq, CrawlError.auditFailed.injEq] at hx
      subst hx
      simp
    | some v =>
      rw [ha] at hx
      dsimp only at hx ⊢
      cases hf : filterHrefs resolve (s.visited ++ [url]) (pageLinks g url) with
      | error h =>
        rw [hf] at hx
        simp at hx
      | ok kept =>
        rw [hf] at hx
        dsimp only at hx ⊢
        exact crawlList_fail_visited resolve go hgo _ _ x hx

lemma spider_fail_visited (g : List (String × List String))
    (resolve : String → Option String) (audit : String → Option (List Violation)) :
    ∀ (d : Nat) (url : String) (s : CrawlState) (x : String),
      (spider g resolve audit d url s).2 = some (CrawlError.auditFailed x) →
      x ∈ (spider g resolve audit d url s).1.visited := by
  intro d
  induction d with
  | zero => intro url s x hx; simp [spider] at hx
  | succ d ih =>
    intro url s x hx
    exact spiderStep_fail_visited g resolve audit _
      (fun u st y hy => ih u st y hy) url s x hx

/-! ### Substring lemmas for the issue dedup check -/

lemma leadsWith_refl : ∀ l : List Char, leadsWith l l = true := by
  intro l
  induction l with
  | nil => rfl
  | cons a t ih => simp [leadsWith, ih]

lemma leadsWith_append (n : List Char) :
    ∀ (l m : List Char), leadsWith n l = true → leadsWith n (l ++ m) = true := by
  induction n with
  | nil => intro l m _; rfl
  | cons a as ih =>
    intro l m h
    cases l with
    | nil => simp [leadsWith] at h
    | cons b bs =>
      simp only [leadsWith, Bool.and_eq_true] at h
      simp only [List.cons_append, leadsWith, Bool.and_eq_true]
      exact ⟨h.1, ih bs m h.2⟩

lemma listContainsSub_nil_need : ∀ hay : List Char, listContainsSub hay [] = true := by
  intro hay
  cases hay with
  | nil => rfl
  | cons a t => simp [listContainsSub, leadsWith]

lemma listContainsSub_of_leadsWith (hay need : List Char)
    (h : leadsWith need hay = true) : listContainsSub hay need = true := by
  cases hay with
  | nil =>
    cases need with
    | nil => rfl
    | cons a t => simp [leadsWith] at h
  | cons a t => simp [listContainsSub, h]

lemma listContainsSub_append_left (a b need : List Char)
    (h : listContainsSub a need = true) : listContainsSub (a ++ b) need = true := by
  induction a with
  | nil =>
    simp only [listContainsSub, List.isEmpty_iff] at h
    subst h
    simpa using listContainsSub_nil_need b
  | cons x t ih =>
    simp only [listContainsSub, Bool.or_eq_true] at h
    simp only [List.cons_append, listContainsSub, Bool.or_eq_true]
    rcases h with h | h
    · exact Or.inl (leadsWith_append need _ b h)
    · exact Or.inr (ih h)

lemma listContainsSub_append_right (a b need : List Char)
    (h : listContainsSub b need = true) : listContainsSub (a ++ b) need = true := by
  induction a with
  | nil => simpa using h
  | cons x t ih =>
    simp only [List.cons_append, listContainsSub, Bool.or_eq_true]
    exact Or.inr ih

lemma strIncludes_refl (s : String) : strIncludes s s = true :=
  listContainsSub_of_leadsWith s.data s.data (leadsWith_refl s.data)

lemma strIncludes_joinLines (t : String) :
    ∀ l : List String, t ∈ l → strIncludes (joinLines l) t = true := by
  intro l
  induction l with
  | nil => intro h; simp at h
  | cons x xs ih =>
    intro h
    rcases List.mem_cons.mp h with rfl | h
    · cases xs with
      | nil => exact strIncludes_refl t
      | cons y ys =>
        show listContainsSub (t ++ "\n" ++ joinLines (y :: ys)).data t.data = true
        rw [String.data_append, String.data_append]
        rw [List.append_assoc]
        exact listContainsSub_append_left _ _ _
          (listContainsSub_of_leadsWith _ _ (leadsWith_refl t.data))
    · cases xs with
      | nil => simp at h
      | cons y ys =>
        show listContainsSub (x ++ "\n" ++ joinLines (y :: ys)).data t.data = true
        rw [String.data_append, String.data_append]
        rw [List.append_assoc]
        exact listContainsSub_append_right _ _ _
          (listContainsSub_append_right _ _ _ (ih h))

lemma issueExists_of_mem (openIssues : List String) (title : String)
    (h : title ∈ openIssues) : issueExists openIssues title = true := by
  unfold issueExists ghIssueList
  exact strIncludes_joinLines title _
    (List.mem_filter.mpr ⟨h, strIncludes_refl title⟩)

lemma processFile_idem (openIssues : List String) (file : String) :
    processFile (processFile openIssues file) file = processFile openIssues file := by
  unfold processFile
  by_cases he : issueExists openIssues (issueTitle file)
  · simp [he]
  · simp only [he, Bool.false_eq_true, if_false]
    have hmem : issueExists (openIssues ++ [issueTitle file]) (issueTitle file) = true :=
      issueExists_of_mem _ _ (by simp)
    simp [hmem]

/-- The listing of the reports directory in the dedup example: the one
report the crawl stored for the contact page. -/
def contactFiles : List String := [ "a11y-contact.md" ]

/-! ### The claims -/

/-- C1: for every crawl run — any site graph, URL parser, audit
behaviour, depth and seed, started from the empty run state — the
visited set never acquires a duplicate entry and the audit inside the
spider is performed on every URL at most once, no matter how many
links, paths or cycles of the link graph reach it: the visited list
and the audit trace are duplicate-free, and each url counts at most
once in the audit trace. -/
theorem C1_audit_at_most_once (g : List (String × List String))
    (resolve : String → Option String) (audit : String → Option (List Violation))
    (d : Nat) (seed : String) :
    (spider g resolve audit d seed emptyState).1.visited.Nodup ∧
      (spider g resolve audit d seed emptyState).1.audits.Nodup ∧
      ∀ u, (spider g resolve audit d seed emptyState).1.audits.count u ≤ 1 := by
  have hinv := spider_inv g resolve audit d seed emptyState
    ⟨by simp [emptyState], by simp [emptyState], by simp [emptyState]⟩
  exact ⟨hinv.1, hinv.2.1, fun u => List.nodup_iff_count_le_one.mp hinv.2.1 u⟩

/-- C2: on the example site where the root links to the about page and
the about page links only to the team page, the crawl seeded at the
source's initial depth 2 — documented in the source as "homepage + 1
level", i.e. a maximum hop distance of 1 from the seed — audits the
about page, while the team page (two hops away) is never visited and
never audited, and the run completes without error. -/
theorem C2_depth_bound :
    aboutUrl ∈ (spider g2 resolveT auditOk 2 rootUrl emptyState).1.audits ∧
      (spider g2 resolveT auditOk 2 rootUrl emptyState).1.audits = [rootUrl, aboutUrl] ∧
      teamUrl ∉ (spider g2 resolveT auditOk 2 rootUrl emptyState).1.visited ∧
      teamUrl ∉ (spider g2 resolveT auditOk 2 rootUrl emptyState).1.audits ∧
      (spider g2 resolveT auditOk 2 rootUrl emptyState).2 = none := by
  decide

/-- C3 counterexample: on the example site, when the audit of the about
page fails, the spider does not return a synthetic violation — the
failure propagates as an error, and the failed task yields no
PageReport at all (no report with the about url exists). -/
theorem C3_counterexample :
    (spider g2 resolveT auditFailAbout 2 rootUrl emptyState).2
        = some (CrawlError.auditFailed aboutUrl) ∧
      aboutUrl ∈ (spider g2 resolveT auditFailAbout 2 rootUrl emptyState).1.audits ∧
      ∀ p ∈ (spider g2 resolveT auditFailAbout 2 rootUrl emptyState).1.reports,
        p.1 ≠ aboutUrl := by
  decide

/-- C3 amended: for every enqueued crawl task whose audit fails
(timeout or navigation error), the spider aborts the crawl with an
audit-failure error for that url; the url is recorded as visited and
attempted, but the task yields no PageReport and no synthetic
violation is produced. -/
theorem C3_audit_failure_aborts (g : List (String × List String))
    (resolve : String → Option String) (audit : String → Option (List Violation))
    (d : Nat) (url : String) (s : CrawlState)
    (hv : url ∉ s.visited) (ha : audit url = none) :
    spider g resolve audit (d + 1) url s =
      (⟨s.visited ++ [url], s.audits ++ [url], s.reports⟩,
        some (CrawlError.auditFailed url)) := by
  simp [spider, spiderStep, hv, ha]

/-- C3 witness: the amended statement applied to a concrete run whose
audit always fails. -/
theorem C3_audit_failure_aborts_witness :
    spider g2 resolveT (fun _ => none) 1 rootUrl emptyState =
      (⟨[rootUrl], [rootUrl], []⟩, some (CrawlError.auditFailed rootUrl)) := by
  have h := C3_audit_failure_aborts g2 resolveT (fun _ => none) 0 rootUrl emptyState
    (by decide) rfl
  simpa [emptyState] using h

/-- C4 counterexample: crawling the contact-page example twice does
leave exactly one open issue, but its title is derived from the stored
file name with only the `.md` suffix stripped, so it reads
`Accessibility issues on /a11y-contact` — no issue titled
`Accessibility issues on /contact` ever exists. -/
theorem C4_counterexample :
    fileIssuesRun (fileIssuesRun [] contactFiles) contactFiles
        = ["Accessibility issues on /a11y-contact"] ∧
      "Accessibility issues on /contact"
        ∉ fileIssuesRun (fileIssuesRun [] contactFiles) contactFiles := by
  decide

/-- C4 amended: running the identical issue-filing pass twice over an
unchanged reports directory creates no duplicate open issue — for the
contact example exactly one open issue exists after both runs, titled
`Accessibility issues on /a11y-contact` (the stored file's `a11y-`
prefix is kept in the title); and re-processing any single report file
against any tracker state is idempotent. -/
theorem C4_second_run_no_duplicates :
    (fileIssuesRun (fileIssuesRun [] contactFiles) contactFiles).length = 1 ∧
      fileIssuesRun (fileIssuesRun [] contactFiles) contactFiles
        = ["Accessibility issues on /a11y-contact"] ∧
      ∀ (openIssues : List String) (file : String),
        processFile (processFile openIssues file) file = processFile openIssues file := by
  exact ⟨by decide, by decide, processFile_idem⟩

/-- C5 counterexample: on the site whose root page carries a malformed
href followed by a good link, the parse failure is not dropped — the
spider aborts with a link-parse error, the good page is never audited,
and only the root itself was audited. -/
theorem C5_counterexample :
    (spider g5 resolveBad auditOk 2 rootUrl emptyState).2
        = some (CrawlError.linkParse ("/bad")) ∧
      (spider g5 resolveBad auditOk 2 rootUrl emptyState).1.audits = [rootUrl] ∧
      goodUrl ∉ (spider g5 resolveBad auditOk 2 rootUrl emptyState).1.audits := by
  decide

/-- C5 amended: a href that fails to parse as a URL against the crawl
base is not dropped: the exception escapes the link filter, the spider
aborts the crawl with a link-parse error for that href, and the
remaining links and pages are not crawled (the state stops at the
current page's report). -/
theorem C5_parse_failure_aborts (g : List (String × List String))
    (resolve : String → Option String) (audit : String → Option (List Violation))
    (d : Nat) (url : String) (s : CrawlState) (v : List Violation) (h : String)
    (hv : url ∉ s.visited) (ha : audit url = some v)
    (hf : filterHrefs resolve (s.visited ++ [url]) (pageLinks g url) = Except.error h) :
    spider g resolve audit (d + 1) url s =
      (⟨s.visited ++ [url], s.audits ++ [url],
          s.reports ++ [(url, formatViolationsToMarkdown url v)]⟩,
        some (CrawlError.linkParse h)) := by
  simp [spider, spiderStep, hv, ha, hf]

/-- C5 witness: the amended statement applied to the malformed-href
example run. -/
theorem C5_parse_failure_aborts_witness :
    spider g5 resolveBad auditOk 2 rootUrl emptyState =
      (⟨[rootUrl], [rootUrl], [(rootUrl, formatViolationsToMarkdown rootUrl [])]⟩,
        some (CrawlError.linkParse ("/bad"))) := by
  have h := C5_parse_failure_aborts g5 resolveBad auditOk 1 rootUrl emptyState []
    ("/bad") (by decide) rfl rfl
  simpa [emptyState] using h

/-- C6: for every page URL, formatting a report with an empty
violation list produces exactly the page heading followed by the fixed
"no violations found" sentinel and nothing else. -/
theorem C6_empty_violations_sentinel (url : String) :
    formatViolationsToMarkdown url [] =
      "## Accessibility Violations on `" ++ url ++ "`\n\n_No violations found._" := by
  show ("## Accessibility Violations on `" ++ url ++ "`\n\n")
      ++ "_No violations found._" = _
  rw [String.append_assoc, String.append_assoc]
  rfl

/-- C7: the report-store key is the slug of the page path — the root
path maps to the reserved key `home`, and every other path (a leading
slash followed by a non-empty remainder) becomes the remainder with
each further slash replaced by a dash, the leading separator being
stripped — and the stored artifact for a page is
`reports/a11y-` slug `.md`. -/
theorem C7_report_slug (rest : List Char) (hne : rest ≠ []) :
    safeName (String.mk ('/' :: rest)) = String.mk (rest.map slashToDash) ∧
      safeName ("/") = "home" ∧
      reportFileName (String.mk ('/' :: rest)) =
        "reports/a11y-" ++ String.mk (rest.map slashToDash) ++ ".md" := by
  have hne2 : String.mk ('/' :: rest) ≠ "/" := by
    intro hc
    have h3 : '/' :: rest = ['/'] := congrArg String.data hc
    simp only [List.cons.injEq] at h3
    exact hne h3.2
  have h1 : safeName (String.mk ('/' :: rest)) = String.mk (rest.map slashToDash) := by
    unfold safeName
    rw [if_neg hne2]
    show stripLeadingDash (String.mk (('/' :: rest).map slashToDash)) = _
    simp only [List.map_cons]
    show stripLeadingDash (String.mk ('-' :: rest.map slashToDash)) = _
    unfold stripLeadingDash
    rfl
  refine ⟨h1, rfl, ?_⟩
  unfold reportFileName
  rw [h1]

/-- C7 witness: the slug and artifact name of the contact page. -/
theorem C7_report_slug_witness :
    safeName ("/contact") = "contact" ∧
      reportFileName ("/contact") = "reports/a11y-contact.md" := by
  have h := C7_report_slug ['c', 'o', 'n', 't', 'a', 'c', 't'] (by decide)
  refine ⟨h.1, ?_⟩
  rw [show ("/contact" : String) = String.mk ['/', 'c', 'o', 'n', 't', 'a', 'c', 't'] from rfl,
    h.2.2]
  decide

/-- C8 counterexample: on the site where the root links to pages a and
b and page a links to page c, the spider audits in the order root, a,
c, b — the recursive calls explore a's subtree before the sibling b —
while the FIFO order of first discovery (the spec's frontier, modelled
by `fifoCrawlOrder`) is root, a, b, c; the two orders differ. -/
theorem C8_counterexample :
    (spider g8 resolveT auditOk 3 rootUrl emptyState).1.audits
        = [rootUrl, aUrl, cUrl, bUrl] ∧
      fifoCrawlOrder g8 resolveT rootUrl 2 10 = [rootUrl, aUrl, bUrl, cUrl] ∧
      (spider g8 resolveT auditOk 3 rootUrl emptyState).1.audits
        ≠ fifoCrawlOrder g8 resolveT rootUrl 2 10 := by
  decide

/-- C8 amended: for a fixed link-extraction order the traversal is
deterministic, but pages are audited in depth-first preorder — each
discovered link's subtree is fully audited before the next sibling
link — not in FIFO order of first discovery: on the example graph the
audit order is the root, then a's whole subtree (a then c), then b. -/
theorem C8_dfs_order :
    (spider g8 resolveT auditOk 3 rootUrl emptyState).1.audits
      = [rootUrl] ++ ([aUrl] ++ [cUrl]) ++ [bUrl] := by
  decide

/-- C9: for every finite link graph, URL parser, audit behaviour,
seed and initial depth, the crawl terminates after finitely many
audits: the audit trace is duplicate-free, is contained in the finite
candidate set (the seed plus the resolutions of the graph's hrefs),
and so is no longer than that set — the frontier drains even in the
presence of cycles, since a URL already visited is never re-audited
and every hop decreases the depth. -/
theorem C9_termination_bound (g : List (String × List String))
    (resolve : String → Option String) (audit : String → Option (List Violation))
    (d : Nat) (seed : String) :
    (spider g resolve audit d seed emptyState).1.audits.Nodup ∧
      (spider g resolve audit d seed emptyState).1.audits ⊆ allCands g resolve seed ∧
      (spider g resolve audit d seed emptyState).1.audits.length
        ≤ (allCands g resolve seed).length := by
  have hinv := spider_inv g resolve audit d seed emptyState
    ⟨by simp [emptyState], by simp [emptyState], by simp [emptyState]⟩
  have hsub := spider_audits_cands g resolve audit d seed
  exact ⟨hinv.2.1, hsub, (hinv.2.1.subperm hsub).length_le⟩

/-- C10: the spider inserts a URL into the visited set strictly before
navigating to or auditing it: from any well-formed state, every
audited url is in the final visited set, the audit trace stays
duplicate-free even when the run ends in a failure, and when the run
aborts with an audit failure the failing url is nevertheless in the
final visited set — so it can never be audited a second time in the
same run. -/
theorem C10_visited_before_audit (g : List (String × List String))
    (resolve : String → Option String) (audit : String → Option (List Violation))
    (d : Nat) (url : String) (s : CrawlState)
    (h1 : s.visited.Nodup) (h2 : s.audits.Nodup) (h3 : s.audits ⊆ s.visited) :
    (spider g resolve audit d url s).1.audits
        ⊆ (spider g resolve audit d url s).1.visited ∧
      (spider g resolve audit d url s).1.audits.Nodup ∧
      ∀ x, (spider g resolve audit d url s).2 = some (CrawlError.auditFailed x) →
        x ∈ (spider g resolve audit d url s).1.visited := by
  have hinv := spider_inv g resolve audit d url s ⟨h1, h2, h3⟩
  exact ⟨hinv.2.2, hinv.2.1,
    fun x hx => spider_fail_visited g resolve audit d url s x hx⟩

/-- C10 witness: the statement applied to the run whose audit of the
about page fails. -/
theorem C10_visited_before_audit_witness :
    (spider g2 resolveT auditFailAbout 2 rootUrl emptyState).1.audits
        ⊆ (spider g2 resolveT auditFailAbout 2 rootUrl emptyState).1.visited ∧
      (spider g2 resolveT auditFailAbout 2 rootUrl emptyState).1.audits.Nodup ∧
      ∀ x, (spider g2 resolveT auditFailAbout 2 rootUrl emptyState).2
          = some (CrawlError.auditFailed x) →
        x ∈ (spider g2 resolveT auditFailAbout 2 rootUrl emptyState).1.visited :=
  C10_visited_before_audit g2 resolveT auditFailAbout 2 rootUrl emptyState
    (by simp [emptyState]) (by simp [emptyState]) (by simp [emptyState])

end A11y
